import Mathlib

/-!
Verification of the text patcher in replace-icons.py.

The program performs three sequential steps over a fixed file path:

1. read the full file content as a UTF-8 string (`content = f.read()`);
2. `content = re.sub(pattern, icons_replacement, content)` where `pattern`
   is the literal regular expression

     // Iconos SVG minimalistas\nconst Icons = \{[\s\S]*?\n\};

   that is: an opening-marker literal, then a lazily matched run of
   arbitrary characters (`[\s\S]*?` matches any character, newline
   included), then the closing-token literal;
3. write the result back to the same path and print a success message.

The regex is embedded shallowly: its two literal parts are the fixed
character lists `marker` and `closeTok`.  Python's `re.sub` with the
default `count=0` replaces every non-overlapping match, scanning left to
right; a match starts at the leftmost position where the opening marker
occurs with an occurrence of the closing token somewhere after it, and
extends to the first such closing token (lazy `*?`).  `findMatch` returns
the decomposition of the first such match and `substitute` replaces all of
them, resuming the scan after the replaced span exactly as the regex
engine does.  The replacement string contains no backslash, so `re.sub`
template expansion inserts it verbatim.

The read/write/print skeleton is embedded as `run` over an abstract
`FileState`; the Python exceptions (FileNotFoundError, PermissionError,
UnicodeDecodeError) become `Except.error` outcomes that skip the print.
-/

/-- The opening-marker part of the regex `pattern` in the source: the text
"// Iconos SVG minimalistas", a newline, then "const Icons = " followed by
an opening brace (written with an escape below).  Every character of this
part of the regex is a literal. -/
def openingMarker : String := "// Iconos SVG minimalistas\nconst Icons = \x7b"

/-- The closing-token part of the regex `pattern`: a newline, a closing
brace, and a semicolon. -/
def closingToken : String := "\n\x7d;"

/-- The replacement block `icons_replacement` from the source, verbatim:
the contents of the triple-quoted Python string literal (braces written
with escapes). -/
def icons_replacement : String := "// Iconos Premium con Lucide - stroke-width 1.75, size 20\nconst iconSize = 20;\nconst iconStroke = 1.75;\n\nconst Icons = \x7b\n  dashboard: <LayoutGrid size=\x7biconSize\x7d strokeWidth=\x7biconStroke\x7d />,\n  propiedades: <Home size=\x7biconSize\x7d strokeWidth=\x7biconStroke\x7d />,\n  pipeline: <Briefcase size=\x7biconSize\x7d strokeWidth=\x7biconStroke\x7d />,\n  propuestas: <FileText size=\x7biconSize\x7d strokeWidth=\x7biconStroke\x7d />,\n  clientes: <Users size=\x7biconSize\x7d strokeWidth=\x7biconStroke\x7d />,\n  equipo: <User size=\x7biconSize\x7d strokeWidth=\x7biconStroke\x7d />,\n  usuarios: <Users size=\x7biconSize\x7d strokeWidth=\x7biconStroke\x7d />,\n  configuracion: <Settings size=\x7biconSize\x7d strokeWidth=\x7biconStroke\x7d />,\n  paginas: <FileStack size=\x7b18\x7d strokeWidth=\x7biconStroke\x7d />,\n  secciones: <Layout size=\x7b18\x7d strokeWidth=\x7biconStroke\x7d />,\n  tema: <Palette size=\x7b18\x7d strokeWidth=\x7biconStroke\x7d />,\n  general: <Sliders size=\x7b18\x7d strokeWidth=\x7biconStroke\x7d />,\n  chevronDown: <ChevronDown size=\x7b16\x7d strokeWidth=\x7biconStroke\x7d />,\n  external: <ExternalLink size=\x7b16\x7d strokeWidth=\x7biconStroke\x7d />,\n  admin: <Shield size=\x7b18\x7d strokeWidth=\x7biconStroke\x7d />,\n  metas: <Target size=\x7biconSize\x7d strokeWidth=\x7biconStroke\x7d />,\n  actividades: <Activity size=\x7biconSize\x7d strokeWidth=\x7biconStroke\x7d />,\n  finanzas: <DollarSign size=\x7biconSize\x7d strokeWidth=\x7biconStroke\x7d />,\n  ventas: <ShoppingCart size=\x7b18\x7d strokeWidth=\x7biconStroke\x7d />,\n  comisiones: <Clock size=\x7b18\x7d strokeWidth=\x7biconStroke\x7d />,\n  facturas: <Receipt size=\x7b18\x7d strokeWidth=\x7biconStroke\x7d />,\n  configuracionFinanzas: <Settings size=\x7b18\x7d strokeWidth=\x7biconStroke\x7d />,\n  mensajeria: <MessageSquare size=\x7biconSize\x7d strokeWidth=\x7biconStroke\x7d />,\n  correo: <Mail size=\x7b18\x7d strokeWidth=\x7biconStroke\x7d />,\n  whatsapp: <MessageCircle size=\x7b18\x7d strokeWidth=\x7biconStroke\x7d />,\n  instagram: <InstagramIcon size=\x7b18\x7d strokeWidth=\x7biconStroke\x7d />,\n  facebook: <FacebookIcon size=\x7b18\x7d strokeWidth=\x7biconStroke\x7d />,\n  chatVivo: <MessageSquare size=\x7b18\x7d strokeWidth=\x7biconStroke\x7d />,\n  configuracionMensajeria: <Settings size=\x7b18\x7d strokeWidth=\x7biconStroke\x7d />,\n  back: <ArrowLeft size=\x7b16\x7d strokeWidth=\x7biconStroke\x7d />,\n  web: <Globe size=\x7biconSize\x7d strokeWidth=\x7biconStroke\x7d />,\n  clicConnect: <Link2 size=\x7biconSize\x7d strokeWidth=\x7biconStroke\x7d />,\n  sistemaFases: <TrendingUp size=\x7biconSize\x7d strokeWidth=\x7biconStroke\x7d />,\n\x7d;"

/-- The success message printed by the final statement of the script. -/
def successMessage : String := "Iconos reemplazados exitosamente!"

/-- The opening marker as a character list. -/
def marker : List Char := openingMarker.toList

/-- The closing token as a character list. -/
def closeTok : List Char := closingToken.toList

/-- The replacement block as a character list. -/
def repl : List Char := icons_replacement.toList

/-- First occurrence of the literal `pat` in `s`: returns
`some (before, after)` with `s = before ++ pat ++ after` where `before` is
shortest, `none` when `pat` (assumed nonempty) does not occur.  This is
literal-substring search, the primitive both regex literals compile to. -/
def splitOnFirst (pat : List Char) : List Char → Option (List Char × List Char)
  | [] => none
  | c :: rest =>
    if pat.isPrefixOf (c :: rest) then some ([], (c :: rest).drop pat.length)
    else
      match splitOnFirst pat rest with
      | some (pre, post) => some (c :: pre, post)
      | none => none

/-- Whether the literal `pat` occurs anywhere in `s`. -/
def occursB (pat s : List Char) : Bool := (splitOnFirst pat s).isSome

/-- The first match of the regex in `t`, as `some (a, post)` where `a` is
the text before the match and `post` the text after it: the match starts
at the leftmost position where `marker` is a prefix of the remaining text
and `closeTok` occurs after that marker, and ends at the first `closeTok`
occurrence after the marker (lazy `[\s\S]*?`).  A position where the
marker occurs but no closing token follows cannot match, and the engine
moves on by one character. -/
def findMatch : List Char → Option (List Char × List Char)
  | [] => none
  | c :: rest =>
    if marker.isPrefixOf (c :: rest) then
      match splitOnFirst closeTok ((c :: rest).drop marker.length) with
      | some (_, post) => some ([], post)
      | none =>
        match findMatch rest with
        | some (a, post) => some (c :: a, post)
        | none => none
    else
      match findMatch rest with
      | some (a, post) => some (c :: a, post)
      | none => none

/-- Fuel-indexed worker for `substitute`: replace the first match with
`repl` and resume after the replaced span, as `re.sub` does with the
default `count=0`.  The fuel only bounds the recursion depth; each match
consumes at least one character, so `t.length` fuel is always enough. -/
def substituteFuel : Nat → List Char → List Char
  | 0, t => t
  | n + 1, t =>
    match findMatch t with
    | none => t
    | some (a, post) => a ++ repl ++ substituteFuel n post

/-- The embedding of `re.sub(pattern, icons_replacement, content)`: replace
every non-overlapping match of the pattern, left to right, by the
replacement block. -/
def substitute (t : List Char) : List Char := substituteFuel t.length t

/-- `noStart u s` says that no occurrence of the opening marker begins
inside the `u` part of `u ++ s`. -/
def noStart (u s : List Char) : Prop :=
  ∀ j, j < u.length → marker.isPrefixOf (u.drop j ++ s) = false

/-- `cleanB u` checks that no nonempty suffix of `u` starts with the
opening marker or is a prefix of it: appended to any text at all, `u`
cannot contribute the start of a marker occurrence. -/
def cleanB : List Char → Bool
  | [] => true
  | c :: rest =>
    !(marker.isPrefixOf (c :: rest)) && !((c :: rest).isPrefixOf marker) && cleanB rest

/-- The I/O errors the script can hit: the Python exceptions
FileNotFoundError, PermissionError and UnicodeDecodeError, all unhandled. -/
inductive IOErr
  | fileNotFound
  | permissionDenied
  | decodeError
deriving DecidableEq

/-- The state of the single target file the script touches: missing,
unreadable, readable but not valid UTF-8, or readable with the given
decoded content and a flag telling whether the later write is permitted. -/
inductive FileState
  | absent
  | unreadable
  | undecodable
  | readable (content : List Char) (writable : Bool)
deriving DecidableEq

/-- The first step of the script: `open(path, "r", encoding="utf-8")`
followed by `f.read()`.  Fails with the corresponding exception when the
path is missing, unreadable, or not valid UTF-8. -/
def readFile : FileState → Except IOErr (List Char)
  | FileState.absent => Except.error IOErr.fileNotFound
  | FileState.unreadable => Except.error IOErr.permissionDenied
  | FileState.undecodable => Except.error IOErr.decodeError
  | FileState.readable c _ => Except.ok c

/-- The third step of the script: `open(path, "w", encoding="utf-8")`
followed by `f.write(content)`: truncates and overwrites the file with the
new content unconditionally, failing only when the path is not writable.
Returns the content now stored in the file. -/
def writeFile : FileState → List Char → Except IOErr (List Char)
  | FileState.readable _ true, newContent => Except.ok newContent
  | FileState.readable _ false, _ => Except.error IOErr.permissionDenied
  | FileState.absent, _ => Except.error IOErr.fileNotFound
  | FileState.unreadable, _ => Except.error IOErr.permissionDenied
  | FileState.undecodable, _ => Except.error IOErr.decodeError

/-- The whole script: read, substitute, write, print.  On success it
returns the written file content and the line printed to stdout; any I/O
error propagates as an unhandled exception (`Except.error`), terminating
the process before the print statement runs. -/
def run (fs : FileState) : Except IOErr (List Char × List Char) :=
  match readFile fs with
  | Except.error e => Except.error e
  | Except.ok content =>
    match writeFile fs (substitute content) with
    | Except.error e => Except.error e
    | Except.ok written => Except.ok (written, successMessage.toList)

/-- UTF-8 encoding of a single character (scalar value), as byte values:
the standard 1-to-4-byte encoding used by Python for
`encoding="utf-8"` and by Lean strings. -/
def utf8EncodeChar (c : Char) : List Nat :=
  let n := c.toNat
  if n < 128 then [n]
  else if n < 2048 then [192 + n / 64, 128 + n % 64]
  else if n < 65536 then [224 + n / 4096, 128 + n / 64 % 64, 128 + n % 64]
  else [240 + n / 262144, 128 + n / 4096 % 64, 128 + n / 64 % 64, 128 + n % 64]

/-- UTF-8 encoding of a text, as the concatenation of the encodings of its
characters: the bytes `f.write` produces. -/
def utf8Bytes (s : List Char) : List Nat := (s.map utf8EncodeChar).flatten

set_option maxRecDepth 12000

/-- The opening marker is a nonempty literal. -/
theorem marker_ne_nil : marker ≠ [] := by decide

/-- The closing token is a nonempty literal. -/
theorem closeTok_ne_nil : closeTok ≠ [] := by decide

/-- The opening marker of the pattern has 42 characters. -/
theorem marker_length : marker.length = 42 := by decide

/-- A successful literal search returns a decomposition of the text. -/
theorem splitOnFirst_decomp {pat s pre post : List Char}
    (h : splitOnFirst pat s = some (pre, post)) : s = pre ++ pat ++ post := by
  induction s generalizing pre post with
  | nil => simp [splitOnFirst] at h
  | cons c rest ih =>
    by_cases hp : pat.isPrefixOf (c :: rest)
    · rw [splitOnFirst, if_pos hp] at h
      obtain ⟨rfl, rfl⟩ := Prod.mk.injEq .. ▸ Option.some.injEq .. ▸ h
      have hpre : pat <+: (c :: rest) := List.isPrefixOf_iff_prefix.mp hp
      obtain ⟨w, hw⟩ := hpre
      have hd : (c :: rest).drop pat.length = w := by rw [← hw, List.drop_left]
      rw [hd, ← hw, List.nil_append]
    · rw [splitOnFirst, if_neg hp] at h
      cases hsp : splitOnFirst pat rest with
      | none => rw [hsp] at h; exact absurd h (by simp)
      | some pp =>
        obtain ⟨pre', post'⟩ := pp
        rw [hsp] at h
        simp only [Option.some.injEq, Prod.mk.injEq] at h
        obtain ⟨rfl, rfl⟩ := h
        have := ih hsp
        simp [this]

/-- Literal search finds the first occurrence: the pattern does not occur
at any position strictly inside the returned prefix. -/
theorem splitOnFirst_first {pat s pre post : List Char}
    (h : splitOnFirst pat s = some (pre, post)) :
    ∀ j, j < pre.length → pat.isPrefixOf (s.drop j) = false := by
  induction s generalizing pre post with
  | nil => simp [splitOnFirst] at h
  | cons c rest ih =>
    by_cases hp : pat.isPrefixOf (c :: rest)
    · rw [splitOnFirst, if_pos hp] at h
      obtain ⟨rfl, rfl⟩ := Prod.mk.injEq .. ▸ Option.some.injEq .. ▸ h
      intro j hj
      exact absurd hj (by simp)
    · rw [splitOnFirst, if_neg hp] at h
      cases hsp : splitOnFirst pat rest with
      | none => rw [hsp] at h; exact absurd h (by simp)
      | some pp =>
        obtain ⟨pre', post'⟩ := pp
        rw [hsp] at h
        simp only [Option.some.injEq, Prod.mk.injEq] at h
        obtain ⟨rfl, rfl⟩ := h
        intro j hj
        cases j with
        | zero => exact Bool.eq_false_iff.mpr hp
        | succ j => exact ih hsp j (by simpa using hj)

/-- When literal search fails, the pattern occurs at no position at all. -/
theorem splitOnFirst_none_drop {pat s : List Char} (hpat : pat ≠ [])
    (h : splitOnFirst pat s = none) (j : Nat) :
    pat.isPrefixOf (s.drop j) = false := by
  induction s generalizing j with
  | nil =>
    cases pat with
    | nil => exact absurd rfl hpat
    | cons p ps => simp [List.isPrefixOf]
  | cons c rest ih =>
    by_cases hp : pat.isPrefixOf (c :: rest)
    · rw [splitOnFirst, if_pos hp] at h
      exact absurd h (by simp)
    · rw [splitOnFirst, if_neg hp] at h
      have hrest : splitOnFirst pat rest = none := by
        cases hsp : splitOnFirst pat rest with
        | none => rfl
        | some pp =>
          obtain ⟨pre', post'⟩ := pp
          rw [hsp] at h
          exact absurd h (by simp)
      cases j with
      | zero => exact Bool.eq_false_iff.mpr hp
      | succ j => rw [List.drop_succ_cons]; exact ih hrest j

/-- `occursB` is the success flag of literal search. -/
theorem occursB_false_iff {pat s : List Char} :
    occursB pat s = false ↔ splitOnFirst pat s = none := by
  unfold occursB
  cases splitOnFirst pat s <;> simp

/-- A text in which the opening marker never occurs has no match. -/
theorem no_marker_no_match {t : List Char}
    (h : splitOnFirst marker t = none) : findMatch t = none := by
  induction t with
  | nil => rfl
  | cons c rest ih =>
    by_cases hp : marker.isPrefixOf (c :: rest)
    · rw [splitOnFirst, if_pos hp] at h
      exact absurd h (by simp)
    · rw [splitOnFirst, if_neg hp] at h
      have hrest : splitOnFirst marker rest = none := by
        cases hsp : splitOnFirst marker rest with
        | none => rfl
        | some pp =>
          obtain ⟨pre', post'⟩ := pp
          rw [hsp] at h
          exact absurd h (by simp)
      rw [findMatch, if_neg hp, ih hrest]

/-- A successful `findMatch` decomposes the text as prefix, marker, gap,
closing token, and remainder. -/
theorem findMatch_decomp {t a post : List Char}
    (h : findMatch t = some (a, post)) :
    ∃ mid, t = a ++ marker ++ mid ++ closeTok ++ post := by
  induction t generalizing a post with
  | nil => simp [findMatch] at h
  | cons c rest ih =>
    by_cases hp : marker.isPrefixOf (c :: rest)
    · rw [findMatch, if_pos hp] at h
      cases hsp : splitOnFirst closeTok ((c :: rest).drop marker.length) with
      | some mp =>
        obtain ⟨mid, post'⟩ := mp
        rw [hsp] at h
        simp only [Option.some.injEq, Prod.mk.injEq] at h
        obtain ⟨rfl, rfl⟩ := h
        refine ⟨mid, ?_⟩
        have hpre : marker <+: (c :: rest) := List.isPrefixOf_iff_prefix.mp hp
        obtain ⟨w, hw⟩ := hpre
        have hd : (c :: rest).drop marker.length = w := by rw [← hw, List.drop_left]
        have hw2 : w = mid ++ closeTok ++ post' := by
          have := splitOnFirst_decomp hsp
          rw [hd] at this
          exact this
        rw [List.nil_append, ← hw, hw2]
        simp
      | none =>
        rw [hsp] at h
        cases hf : findMatch rest with
        | none => rw [hf] at h; exact absurd h (by simp)
        | some ap =>
          obtain ⟨a', post'⟩ := ap
          rw [hf] at h
          simp only [Option.some.injEq, Prod.mk.injEq] at h
          obtain ⟨rfl, rfl⟩ := h
          obtain ⟨mid, hmid⟩ := ih hf
          exact ⟨mid, by simp [hmid]⟩
    · rw [findMatch, if_neg hp] at h
      cases hf : findMatch rest with
      | none => rw [hf] at h; exact absurd h (by simp)
      | some ap =>
        obtain ⟨a', post'⟩ := ap
        rw [hf] at h
        simp only [Option.some.injEq, Prod.mk.injEq] at h
        obtain ⟨rfl, rfl⟩ := h
        obtain ⟨mid, hmid⟩ := ih hf
        exact ⟨mid, by simp [hmid]⟩

/-- The remainder after a match is strictly shorter than the text. -/
theorem findMatch_post_lt {t a post : List Char}
    (h : findMatch t = some (a, post)) : post.length < t.length := by
  obtain ⟨mid, hmid⟩ := findMatch_decomp h
  have hm : 0 < marker.length := by decide
  rw [hmid]
  simp only [List.length_append]
  omega

/-- With no match, the worker is the identity whatever the fuel. -/
theorem substituteFuel_none {n : Nat} {t : List Char}
    (h : findMatch t = none) : substituteFuel n t = t := by
  cases n with
  | zero => rfl
  | succ n => rw [substituteFuel, h]

/-- Any fuel at least the length of the text computes `substitute`. -/
theorem substituteFuel_eq :
    ∀ n t, t.length ≤ n → substituteFuel n t = substitute t := by
  intro n
  induction n using Nat.strong_induction_on with
  | _ n ih =>
    intro t hle
    cases hf : findMatch t with
    | none => rw [substituteFuel_none hf, substitute, substituteFuel_none hf]
    | some ap =>
      obtain ⟨a, post⟩ := ap
      have hlt := findMatch_post_lt hf
      have ht : t.length ≠ 0 := by
        intro h0
        rw [List.length_eq_zero.mp h0] at hf
        exact absurd hf (by simp [findMatch])
      cases n with
      | zero => omega
      | succ n =>
        obtain ⟨m, hm⟩ : ∃ m, t.length = m + 1 := ⟨t.length - 1, by omega⟩
        have h1 : substituteFuel n post = substitute post := ih n (by omega) post (by omega)
        have h2 : substituteFuel m post = substitute post := ih m (by omega) post (by omega)
        rw [substitute, hm]
        simp only [substituteFuel, hf]
        rw [h1, h2]

/-- Computation rule for `substitute` when there is no match. -/
theorem substitute_none {t : List Char} (h : findMatch t = none) :
    substitute t = t := substituteFuel_none h

/-- Computation rule for `substitute` at a match: replace the matched span
and continue on the remainder, as `re.sub` does with the default count. -/
theorem substitute_some {t a post : List Char}
    (h : findMatch t = some (a, post)) :
    substitute t = a ++ repl ++ substitute post := by
  have hlt := findMatch_post_lt h
  have ht : t.length ≠ 0 := by
    intro h0
    rw [List.length_eq_zero.mp h0] at h
    exact absurd h (by simp [findMatch])
  obtain ⟨m, hm⟩ : ∃ m, t.length = m + 1 := ⟨t.length - 1, by omega⟩
  rw [substitute, hm]
  simp only [substituteFuel, h]
  rw [substituteFuel_eq m post (by omega)]

/-- If no closing token occurs after a marker found at the head of the
text, then nothing after that marker can match either: every later match
would need a closing token in the tail, and there is none. -/
theorem close_none_no_match {c : Char} {rest : List Char}
    (hsp : splitOnFirst closeTok ((c :: rest).drop marker.length) = none) :
    findMatch rest = none := by
  cases hf : findMatch rest with
  | none => rfl
  | some ap =>
    obtain ⟨a, post⟩ := ap
    obtain ⟨mid, hmid⟩ := findMatch_decomp hf
    exfalso
    have hfirst := splitOnFirst_none_drop closeTok_ne_nil hsp
    set p := (a ++ marker ++ mid).length with hp
    have hdropc : (c :: rest).drop marker.length = rest.drop (marker.length - 1) := by
      have h42 : marker.length = 42 := marker_length
      rw [h42]
      rfl
    have hdropp : rest.drop p = closeTok ++ post := by
      have : rest = (a ++ marker ++ mid) ++ (closeTok ++ post) := by
        rw [hmid]; simp
      rw [this, List.drop_left]
    have hple : marker.length - 1 ≤ p := by
      have : p = a.length + marker.length + mid.length := by
        simp only [hp, List.length_append]
      omega
    have hpref : closeTok.isPrefixOf (rest.drop p) = true := by
      rw [hdropp]
      exact List.isPrefixOf_iff_prefix.mpr (List.prefix_append closeTok post)
    have := hfirst (p - (marker.length - 1))
    rw [hdropc, List.drop_drop] at this
    have heq : marker.length - 1 + (p - (marker.length - 1)) = p := by omega
    rw [heq] at this
    rw [hpref] at this
    exact absurd this (by simp)

/-- When the first marker occurrence is followed by a closing token, the
first match of the pattern starts exactly at that first occurrence and
ends at that closing token. -/
theorem first_marker_with_close {t pre r mid post : List Char}
    (h1 : splitOnFirst marker t = some (pre, r))
    (h2 : splitOnFirst closeTok r = some (mid, post)) :
    findMatch t = some (pre, post) := by
  induction t generalizing pre with
  | nil => simp [splitOnFirst] at h1
  | cons c rest ih =>
    by_cases hp : marker.isPrefixOf (c :: rest)
    · rw [splitOnFirst, if_pos hp] at h1
      obtain ⟨rfl, hr⟩ := Prod.mk.injEq .. ▸ Option.some.injEq .. ▸ h1
      rw [findMatch, if_pos hp, hr, h2]
    · rw [splitOnFirst, if_neg hp] at h1
      cases hsp : splitOnFirst marker rest with
      | none => rw [hsp] at h1; exact absurd h1 (by simp)
      | some pp =>
        obtain ⟨pre', r'⟩ := pp
        rw [hsp] at h1
        simp only [Option.some.injEq, Prod.mk.injEq] at h1
        obtain ⟨rfl, rfl⟩ := h1
        rw [findMatch, if_neg hp, ih hsp]

/-- Two lists that are both prefixes of a common list are comparable; in
the form used here: a prefix of `y ++ z` is a prefix of `y` or extends all
of `y`. -/
theorem prefix_overlap {x y z : List Char} (h : x <+: y ++ z) :
    x <+: y ∨ y <+: x := by
  obtain ⟨w, hw⟩ := h
  rcases List.append_eq_append_iff.mp hw with ⟨a', ha1, _⟩ | ⟨c', hc1, _⟩
  · exact Or.inl ⟨a', ha1.symm⟩
  · exact Or.inr ⟨c', hc1.symm⟩

/-- If the whole marker is a prefix of `marker.take k ++ q`, the rest of
the marker after its first `k` characters is a prefix of `q`. -/
theorem marker_extend {k : Nat} {q : List Char}
    (h : marker <+: marker.take k ++ q) : marker.drop k <+: q := by
  have h' : marker.take k ++ marker.drop k <+: marker.take k ++ q := by
    rwa [List.take_append_drop]
  exact (List.prefix_append_right_inj _).mp h'

/-- `cleanB` spelled out: no nonempty suffix starts with the marker, and
none is a prefix of the marker. -/
theorem cleanB_spec {u : List Char} (h : cleanB u = true) :
    ∀ j, j < u.length →
      marker.isPrefixOf (u.drop j) = false ∧ (u.drop j).isPrefixOf marker = false := by
  induction u with
  | nil => intro j hj; exact absurd hj (by simp)
  | cons c rest ih =>
    simp only [cleanB, Bool.and_eq_true, Bool.not_eq_true'] at h
    obtain ⟨⟨h1, h2⟩, h3⟩ := h
    intro j hj
    cases j with
    | zero => exact ⟨h1, h2⟩
    | succ j => rw [List.drop_succ_cons]; exact ih h3 j (by simpa using hj)

/-- The replacement block is clean: no suffix of it can begin a marker
occurrence, whatever follows it.  Checked by evaluation on the literal. -/
theorem cleanB_repl : cleanB repl = true := by decide

/-- No nonempty proper tail of the marker is a prefix of the replacement
block.  Checked by evaluation on the literals. -/
theorem marker_drop_not_prefix_repl :
    ∀ k, k < 42 → 1 ≤ k → (marker.drop k).isPrefixOf repl = false := by decide

/-- The replacement block is not a prefix of any tail of the marker.
Checked by evaluation on the literals. -/
theorem repl_not_prefix_marker_drop :
    ∀ k, k < 42 → repl.isPrefixOf (marker.drop k) = false := by decide

/-- No marker occurrence can begin inside the replacement block, whatever
text follows it. -/
theorem noStart_repl (q : List Char) : noStart repl q := by
  intro j hj
  by_contra hb
  have hb' : marker <+: repl.drop j ++ q := by
    have : marker.isPrefixOf (repl.drop j ++ q) = true := by
      cases hx : marker.isPrefixOf (repl.drop j ++ q) with
      | true => rfl
      | false => exact absurd hx hb
    exact List.isPrefixOf_iff_prefix.mp this
  obtain ⟨hc1, hc2⟩ := cleanB_spec cleanB_repl j hj
  rcases prefix_overlap hb' with hm | hd
  · rw [List.isPrefixOf_iff_prefix.mpr hm] at hc1
    exact absurd hc1 (by simp)
  · rw [List.isPrefixOf_iff_prefix.mpr hd] at hc2
    exact absurd hc2 (by simp)

/-- Bool-to-Prop bridge: a prefix test that is not false holds. -/
theorem prefix_of_not_false {a b : List Char}
    (h : ¬ a.isPrefixOf b = false) : a <+: b := by
  cases hx : a.isPrefixOf b with
  | true => exact List.isPrefixOf_iff_prefix.mp hx
  | false => exact absurd hx h

/-- No marker occurrence can begin inside the prefix returned by
`findMatch` when the replacement block follows it: the scan rejected every
position of that prefix, and the replacement block cannot complete a
partial marker. -/
theorem findMatch_noStart {t a post : List Char}
    (h : findMatch t = some (a, post)) (q : List Char) :
    noStart a (repl ++ q) := by
  induction t generalizing a post with
  | nil => simp [findMatch] at h
  | cons c rest ih =>
    by_cases hp : marker.isPrefixOf (c :: rest)
    · rw [findMatch, if_pos hp] at h
      cases hsp : splitOnFirst closeTok ((c :: rest).drop marker.length) with
      | some mp =>
        obtain ⟨mid, post'⟩ := mp
        rw [hsp] at h
        simp only [Option.some.injEq, Prod.mk.injEq] at h
        obtain ⟨rfl, rfl⟩ := h
        intro j hj
        exact absurd hj (by simp)
      | none =>
        rw [hsp, close_none_no_match hsp] at h
        exact absurd h (by simp)
    · rw [findMatch, if_neg hp] at h
      cases hf : findMatch rest with
      | none => rw [hf] at h; exact absurd h (by simp)
      | some ap =>
        obtain ⟨a', post'⟩ := ap
        rw [hf] at h
        simp only [Option.some.injEq, Prod.mk.injEq] at h
        obtain ⟨rfl, rfl⟩ := h
        have ihns := ih hf
        intro j hj
        cases j with
        | succ j =>
          rw [List.drop_succ_cons]
          exact ihns j (by simpa using hj)
        | zero =>
          rw [List.drop_zero]
          by_contra hb
          have hb' : marker <+: (c :: a') ++ (repl ++ q) := prefix_of_not_false hb
          obtain ⟨mid, hmid⟩ := findMatch_decomp hf
          have hrest : c :: rest = (c :: a') ++ (marker ++ mid ++ closeTok ++ post') := by
            rw [hmid]; simp
          rcases prefix_overlap hb' with hm | hd
          · have : marker <+: (c :: rest) := by
              rw [hrest]
              exact hm.trans (List.prefix_append _ _)
            exact hp (List.isPrefixOf_iff_prefix.mpr this)
          · by_cases hk42 : (c :: a').length = marker.length
            · have hceq : (c :: a') = marker := hd.eq_of_length hk42
              have : marker <+: (c :: rest) := by
                rw [hrest, hceq]
                exact List.prefix_append _ _
              exact hp (List.isPrefixOf_iff_prefix.mpr this)
            · have hklt : (c :: a').length < marker.length :=
                Nat.lt_of_le_of_ne hd.length_le hk42
              have hk1 : 1 ≤ (c :: a').length := by simp
              have hk : (c :: a') = marker.take (c :: a').length :=
                List.prefix_iff_eq_take.mp hd
              have hdk : marker.drop (c :: a').length <+: repl ++ q := by
                apply marker_extend
                rwa [hk] at hb'
              have h42 : marker.length = 42 := marker_length
              rcases prefix_overlap hdk with h1 | h2
              · have hfact := marker_drop_not_prefix_repl (c :: a').length
                  (by omega) hk1
                rw [List.isPrefixOf_iff_prefix.mpr h1] at hfact
                exact absurd hfact (by simp)
              · have hfact := repl_not_prefix_marker_drop (c :: a').length (by omega)
                rw [List.isPrefixOf_iff_prefix.mpr h2] at hfact
                exact absurd hfact (by simp)

/-- Prepending text in which no marker occurrence can begin preserves the
absence of a match. -/
theorem findMatch_append_none {u s : List Char}
    (hns : noStart u s) (hs : findMatch s = none) :
    findMatch (u ++ s) = none := by
  induction u with
  | nil => simpa using hs
  | cons c u' ih =>
    have h0 : marker.isPrefixOf (c :: (u' ++ s)) = false := by
      have := hns 0 (by simp)
      simpa using this
    have hns' : noStart u' s := by
      intro j hj
      have := hns (j + 1) (by simpa using hj)
      simpa using this
    rw [List.cons_append, findMatch, if_neg ?hneg, ih hns']
    intro hx
    rw [hx] at h0
    exact absurd h0 (by simp)

/-- The output of `substitute` contains no match of the pattern: the
replaced spans are gone, the replacement block cannot take part in a new
match, and the skipped positions still fail. -/
theorem noMatch_substitute (t : List Char) : findMatch (substitute t) = none := by
  suffices h : ∀ n t, t.length ≤ n → findMatch (substitute t) = none by
    exact h t.length t le_rfl
  intro n
  induction n using Nat.strong_induction_on with
  | _ n ih =>
    intro t hle
    cases hf : findMatch t with
    | none => rw [substitute_none hf]; exact hf
    | some ap =>
      obtain ⟨a, post⟩ := ap
      have hlt := findMatch_post_lt hf
      rw [substitute_some hf]
      have hq : findMatch (substitute post) = none := by
        cases n with
        | zero => omega
        | succ n => exact ih n (by omega) post (by omega)
      have h1 : findMatch (repl ++ substitute post) = none :=
        findMatch_append_none (noStart_repl (substitute post)) hq
      have h2 : findMatch (a ++ (repl ++ substitute post)) = none :=
        findMatch_append_none (findMatch_noStart hf (substitute post)) h1
      rw [List.append_assoc]
      exact h2

/-- A single-span substitution: when the first marker occurrence is
followed by a closing token and the remainder after the span contains no
further match, exactly that span is replaced by the replacement block. -/
theorem substitute_single {t pre mid post : List Char}
    (h1 : splitOnFirst marker t = some (pre, mid ++ closeTok ++ post))
    (h2 : splitOnFirst closeTok (mid ++ closeTok ++ post) = some (mid, post))
    (h3 : findMatch post = none) :
    substitute t = pre ++ repl ++ post := by
  rw [substitute_some (first_marker_with_close h1 h2), substitute_none h3]

/-- UTF-8 encoding distributes over concatenation of texts. -/
theorem utf8Bytes_append (a b : List Char) :
    utf8Bytes (a ++ b) = utf8Bytes a ++ utf8Bytes b := by
  simp [utf8Bytes]

/-- A dangling marker with no closing token anywhere after the first
marker occurrence yields no match at all. -/
theorem dangling_marker_no_match {t pre r : List Char}
    (h1 : splitOnFirst marker t = some (pre, r))
    (h2 : splitOnFirst closeTok r = none) :
    findMatch t = none := by
  induction t generalizing pre with
  | nil => simp [splitOnFirst] at h1
  | cons c rest ih =>
    by_cases hp : marker.isPrefixOf (c :: rest)
    · rw [splitOnFirst, if_pos hp] at h1
      obtain ⟨rfl, hr⟩ := Prod.mk.injEq .. ▸ Option.some.injEq .. ▸ h1
      have hcc : splitOnFirst closeTok ((c :: rest).drop marker.length) = none := by
        rw [hr]; exact h2
      rw [findMatch, if_pos hp, hcc, close_none_no_match hcc]
    · rw [splitOnFirst, if_neg hp] at h1
      cases hsp : splitOnFirst marker rest with
      | none => rw [hsp] at h1; exact absurd h1 (by simp)
      | some pp =>
        obtain ⟨pre', r'⟩ := pp
        rw [hsp] at h1
        simp only [Option.some.injEq, Prod.mk.injEq] at h1
        obtain ⟨rfl, rfl⟩ := h1
        rw [findMatch, if_neg hp, ih hsp]

/-- C1 as stated is false on the code: `re.sub` with the default
`count=0` replaces every non-overlapping match, not only the first.  On
the input made of two adjacent matching spans, the output is two copies of
the replacement block, not one copy followed by the untouched second
span. -/
theorem claim_C1_counterexample :
    substitute (marker ++ (closeTok ++ (marker ++ closeTok))) = repl ++ repl ∧
      repl ++ repl ≠ repl ++ (marker ++ closeTok) := by
  constructor
  · have hf1 : findMatch (marker ++ (closeTok ++ (marker ++ closeTok))) =
        some ([], marker ++ closeTok) := by decide
    have hf2 : findMatch (marker ++ closeTok) = some ([], []) := by decide
    have hf3 : findMatch ([] : List Char) = none := rfl
    rw [substitute_some hf1, substitute_some hf2, substitute_none hf3]
    simp
  · intro h
    have := List.append_cancel_left h
    exact absurd this (by decide)

/-- C1, amended: the substitute operation replaces every matching span,
scanning left to right; with two spans (each a first marker occurrence
followed by a first closing token, with nothing matching after the second
span) both are replaced by the replacement block. -/
theorem claim_C1 {t pre1 mid1 post1 pre2 mid2 post2 : List Char}
    (h1 : splitOnFirst marker t = some (pre1, mid1 ++ closeTok ++ post1))
    (h2 : splitOnFirst closeTok (mid1 ++ closeTok ++ post1) = some (mid1, post1))
    (h3 : splitOnFirst marker post1 = some (pre2, mid2 ++ closeTok ++ post2))
    (h4 : splitOnFirst closeTok (mid2 ++ closeTok ++ post2) = some (mid2, post2))
    (h5 : findMatch post2 = none) :
    substitute t = pre1 ++ repl ++ (pre2 ++ repl ++ post2) := by
  rw [substitute_some (first_marker_with_close h1 h2), substitute_single h3 h4 h5]

/-- C1 witness: a concrete input with two matching spans, both replaced. -/
theorem claim_C1_witness :
    splitOnFirst marker
        ("X".toList ++ (marker ++ (closeTok ++ (marker ++ ("Y".toList ++ closeTok))))) =
      some ("X".toList, [] ++ closeTok ++ (marker ++ ("Y".toList ++ closeTok))) ∧
    splitOnFirst closeTok ([] ++ closeTok ++ (marker ++ ("Y".toList ++ closeTok))) =
      some ([], marker ++ ("Y".toList ++ closeTok)) ∧
    splitOnFirst marker (marker ++ ("Y".toList ++ closeTok)) =
      some ([], "Y".toList ++ closeTok ++ []) ∧
    splitOnFirst closeTok ("Y".toList ++ closeTok ++ []) = some ("Y".toList, []) ∧
    findMatch ([] : List Char) = none ∧
    substitute
        ("X".toList ++ (marker ++ (closeTok ++ (marker ++ ("Y".toList ++ closeTok))))) =
      "X".toList ++ repl ++ ([] ++ repl ++ []) :=
  ⟨by decide, by decide, by decide, by decide, rfl,
    @claim_C1 ("X".toList ++ (marker ++ (closeTok ++ (marker ++ ("Y".toList ++ closeTok)))))
      ("X".toList) [] (marker ++ ("Y".toList ++ closeTok)) [] ("Y".toList) []
      (by decide) (by decide) (by decide) (by decide) rfl⟩

/-- C2: on an input with exactly one matching span (the first marker
occurrence, closed by the first closing token after it, with no further
match in the remainder), the output is the text before the span unchanged,
then the replacement block verbatim, then the text after the span
unchanged; moreover the replacement block contains no backslash, so the
`re.sub` template expansion that could rewrite it is the identity. -/
theorem claim_C2 {t pre mid post : List Char}
    (h1 : splitOnFirst marker t = some (pre, mid ++ closeTok ++ post))
    (h2 : splitOnFirst closeTok (mid ++ closeTok ++ post) = some (mid, post))
    (h3 : findMatch post = none) :
    substitute t = pre ++ repl ++ post ∧
      repl.all (fun c => c != '\\') = true :=
  ⟨substitute_single h1 h2 h3, by decide⟩

/-- C2 witness: a concrete single-span input. -/
theorem claim_C2_witness :
    splitOnFirst marker ("before\n".toList ++ (marker ++ ("gap".toList ++ (closeTok ++ "after".toList)))) =
      some ("before\n".toList, "gap".toList ++ closeTok ++ "after".toList) ∧
    splitOnFirst closeTok ("gap".toList ++ closeTok ++ "after".toList) =
      some ("gap".toList, "after".toList) ∧
    findMatch "after".toList = none ∧
    substitute ("before\n".toList ++ (marker ++ ("gap".toList ++ (closeTok ++ "after".toList)))) =
      "before\n".toList ++ repl ++ "after".toList :=
  ⟨by decide, by decide, by decide,
    (@claim_C2 ("before\n".toList ++ (marker ++ ("gap".toList ++ (closeTok ++ "after".toList))))
      ("before\n".toList) ("gap".toList) ("after".toList)
      (by decide) (by decide) (by decide)).1⟩

/-- C3: matching is lazy.  When the first marker occurrence is followed by
a closing token, the replaced span ends at the first closing-token
occurrence after the marker: no closing token occurs inside the matched
gap, and substitution continues only after that first close, even when
more closing tokens follow. -/
theorem claim_C3 {t pre r mid post : List Char}
    (h1 : splitOnFirst marker t = some (pre, r))
    (h2 : splitOnFirst closeTok r = some (mid, post))
    (h3 : occursB closeTok post = true) :
    substitute t = pre ++ repl ++ substitute post ∧
      ∀ j, j < mid.length → closeTok.isPrefixOf (r.drop j) = false :=
  ⟨substitute_some (first_marker_with_close h1 h2), splitOnFirst_first h2⟩

/-- C3 witness: after the marker the closing token occurs twice; the
span ends at the first one. -/
theorem claim_C3_witness :
    splitOnFirst marker (marker ++ ("a".toList ++ closeTok ++ ("b".toList ++ closeTok))) =
      some ([], "a".toList ++ closeTok ++ ("b".toList ++ closeTok)) ∧
    splitOnFirst closeTok ("a".toList ++ closeTok ++ ("b".toList ++ closeTok)) =
      some ("a".toList, "b".toList ++ closeTok) ∧
    occursB closeTok ("b".toList ++ closeTok) = true ∧
    substitute (marker ++ ("a".toList ++ closeTok ++ ("b".toList ++ closeTok))) =
      [] ++ repl ++ substitute ("b".toList ++ closeTok) :=
  ⟨by decide, by decide, by decide,
    (@claim_C3 (marker ++ ("a".toList ++ closeTok ++ ("b".toList ++ closeTok)))
      [] ("a".toList ++ closeTok ++ ("b".toList ++ closeTok)) ("a".toList)
      ("b".toList ++ closeTok) (by decide) (by decide) (by decide)).1⟩

/-- C4: no-match passthrough.  When the opening marker does not occur in
the input text, substitution returns the text unchanged, and the run still
writes the file and prints the success message. -/
theorem claim_C4 {t : List Char} (h : occursB marker t = false) :
    substitute t = t ∧
      run (FileState.readable t true) = Except.ok (t, successMessage.toList) := by
  have hs : substitute t = t :=
    substitute_none (no_marker_no_match (occursB_false_iff.mp h))
  exact ⟨hs, by simp [run, readFile, writeFile, hs]⟩

/-- C4 witness: a concrete marker-free input. -/
theorem claim_C4_witness :
    occursB marker "hola mundo".toList = false ∧
    substitute "hola mundo".toList = "hola mundo".toList ∧
    run (FileState.readable "hola mundo".toList true) =
      Except.ok ("hola mundo".toList, successMessage.toList) := by
  have h := @claim_C4 "hola mundo".toList (by decide)
  exact ⟨by decide, h.1, h.2⟩

/-- C5: idempotence.  Applying the substitute operation twice gives the
same result as applying it once, for every input text: the output of a
first application contains no matching span, because the replacement
block contains neither the opening marker nor any fragment able to
complete one. -/
theorem claim_C5 (t : List Char) : substitute (substitute t) = substitute t :=
  substitute_none (noMatch_substitute t)

/-- C6: the success message is printed exactly when the read, substitute
and write steps all complete; every I/O error (missing file, unreadable
file, undecodable file, unwritable file) propagates as an unhandled
exception, terminating the run before the message is printed, and in
particular a run against a non-existent path fails with file-not-found. -/
theorem claim_C6 :
    run FileState.absent = Except.error IOErr.fileNotFound ∧
    run FileState.unreadable = Except.error IOErr.permissionDenied ∧
    run FileState.undecodable = Except.error IOErr.decodeError ∧
    (∀ c, run (FileState.readable c false) = Except.error IOErr.permissionDenied) ∧
    ∀ fs, (∃ w, run fs = Except.ok (w, successMessage.toList)) ↔
      ∃ c, fs = FileState.readable c true := by
  refine ⟨rfl, rfl, rfl, fun c => rfl, fun fs => ?_⟩
  cases fs with
  | absent => simp [run, readFile]
  | unreadable => simp [run, readFile]
  | undecodable => simp [run, readFile]
  | readable c w =>
    cases w with
    | true => simp [run, readFile, writeFile]
    | false => simp [run, readFile, writeFile]

/-- C7: encoding fidelity.  For a single-span input, the UTF-8 bytes
written are the bytes of the text before the span, the bytes of the
replacement block, and the bytes of the text after the span: characters
outside the matched span (non-ASCII ones included) are preserved
byte-for-byte by the read-substitute-write round trip. -/
theorem claim_C7 {t pre mid post : List Char}
    (h1 : splitOnFirst marker t = some (pre, mid ++ closeTok ++ post))
    (h2 : splitOnFirst closeTok (mid ++ closeTok ++ post) = some (mid, post))
    (h3 : findMatch post = none) :
    utf8Bytes (substitute t) = utf8Bytes pre ++ utf8Bytes repl ++ utf8Bytes post := by
  rw [substitute_single h1 h2 h3, utf8Bytes_append, utf8Bytes_append]

/-- C7 witness: accented characters appear before and after the span and
their bytes survive unchanged. -/
theorem claim_C7_witness :
    splitOnFirst marker ("Café\n".toList ++ (marker ++ ("x".toList ++ (closeTok ++ " fín".toList)))) =
      some ("Café\n".toList, "x".toList ++ closeTok ++ " fín".toList) ∧
    splitOnFirst closeTok ("x".toList ++ closeTok ++ " fín".toList) =
      some ("x".toList, " fín".toList) ∧
    findMatch " fín".toList = none ∧
    utf8Bytes (substitute ("Café\n".toList ++ (marker ++ ("x".toList ++ (closeTok ++ " fín".toList))))) =
      utf8Bytes "Café\n".toList ++ utf8Bytes repl ++ utf8Bytes " fín".toList :=
  ⟨by decide, by decide, by decide,
    @claim_C7 ("Café\n".toList ++ (marker ++ ("x".toList ++ (closeTok ++ " fín".toList))))
      ("Café\n".toList) ("x".toList) (" fín".toList)
      (by decide) (by decide) (by decide)⟩

/-- C8: a dangling marker is a silent no-op.  When the opening marker
occurs but no closing token occurs anywhere after the first marker
occurrence, the pattern does not match and substitution returns the text
unchanged. -/
theorem claim_C8 {t pre r : List Char}
    (h1 : splitOnFirst marker t = some (pre, r))
    (h2 : occursB closeTok r = false) :
    substitute t = t :=
  substitute_none (dangling_marker_no_match h1 (occursB_false_iff.mp h2))

/-- C8 witness: a marker at the end of the text, never closed. -/
theorem claim_C8_witness :
    splitOnFirst marker ("x".toList ++ marker) = some ("x".toList, []) ∧
    occursB closeTok [] = false ∧
    substitute ("x".toList ++ marker) = "x".toList ++ marker :=
  ⟨by decide, by decide,
    @claim_C8 ("x".toList ++ marker) ("x".toList) [] (by decide) (by decide)⟩

/-- C9: the write step runs unconditionally on every successful run: the
file is reopened and overwritten with the substituted text, and when the
pattern matched nothing the written content equals what was read, so the
file is rewritten with identical content. -/
theorem claim_C9 {t : List Char} (h : occursB marker t = false) :
    run (FileState.readable t true) = Except.ok (t, successMessage.toList) ∧
    ∀ u : List Char,
      run (FileState.readable u true) = Except.ok (substitute u, successMessage.toList) := by
  have hs : substitute t = t :=
    substitute_none (no_marker_no_match (occursB_false_iff.mp h))
  refine ⟨by simp [run, readFile, writeFile, hs], fun u => ?_⟩
  simp [run, readFile, writeFile]

/-- C9 witness: a marker-free content is rewritten as read. -/
theorem claim_C9_witness :
    occursB marker "abc".toList = false ∧
    run (FileState.readable "abc".toList true) =
      Except.ok ("abc".toList, successMessage.toList) :=
  ⟨by decide, (@claim_C9 "abc".toList (by decide)).1⟩

/-- C10: determinism.  The transform is a pure function of the input
text and the two fixed literals: two runs on equal contents produce equal
substituted texts and equal run outcomes, and every successful run's
output is determined as `substitute` of the content read. -/
theorem claim_C10 (t1 t2 : List Char) (h : t1 = t2) :
    substitute t1 = substitute t2 ∧
    run (FileState.readable t1 true) = run (FileState.readable t2 true) ∧
    run (FileState.readable t1 true) =
      Except.ok (substitute t1, successMessage.toList) := by
  subst h
  exact ⟨rfl, rfl, by simp [run, readFile, writeFile]⟩

/-- C10 witness: equal contents give equal outcomes. -/
theorem claim_C10_witness :
    substitute "abc".toList = substitute "abc".toList ∧
    run (FileState.readable "abc".toList true) = run (FileState.readable "abc".toList true) ∧
    run (FileState.readable "abc".toList true) =
      Except.ok (substitute "abc".toList, successMessage.toList) :=
  claim_C10 "abc".toList "abc".toList rfl
